import Mathlib

/-!
Verification of the gitagrip concurrent application core against its
natural-language specification.

The development shallowly embeds the relevant Rust sources:
  * `crates/core/src/domain/{repo,events,commit}.rs` — domain model,
  * `crates/core/src/app/{commands,queries}.rs` — Command union and the
    `ReadProjection` fold,
  * `crates/app/src/adapters/discovery.rs` — `FsDiscoveryAdapter`,
  * `crates/app/src/adapters/git.rs` — `GitAdapter` (`status`, `fetch`, `log`),
  * `crates/app/src/services/app_service.rs` — the orchestrator
    (`AppService::handle_command`, `handle_event`, the background-task event
    emission, and `run_event_loop`).

Filesystem paths are modelled as lists of components; machinery of git2
(reference resolution, diff flags, revision parsing) is modelled by abstract
fields of a `GitRepo` record, faithful to the call contract the adapter uses.
-/

/-- `RepoId` from `domain/repo.rs`: a newtype over `String`. -/
abbrev RepoId := String

/-- `RepoMeta` from `domain/repo.rs`. Paths are lists of components. -/
structure RepoMeta where
  name : String
  path : List String
  auto_group : String
deriving DecidableEq, Repr

/-- `RepoStatus` from `domain/repo.rs`. -/
structure RepoStatus where
  name : String
  path : List String
  branch_name : Option String
  is_dirty : Bool
  ahead_count : Nat
  behind_count : Nat
  is_detached : Bool
  has_staged : Bool
  has_unstaged : Bool
  last_commit_summary : String
deriving DecidableEq, Repr

/-- `Author` from `domain/commit.rs`. -/
structure Author where
  name : String
  email : String
deriving DecidableEq, Repr

/-- `Timestamp` from `domain/commit.rs`. -/
structure Timestamp where
  seconds : Int
  offset_minutes : Int
deriving DecidableEq, Repr

/-- `Commit` from `domain/commit.rs`. -/
structure Commit where
  id : String
  message : String
  author : Author
  timestamp : Timestamp
deriving DecidableEq, Repr

/-- `Group` from `domain/repo.rs` (named `RepoGroup` here to avoid clashing
with Mathlib's `Group`). -/
structure RepoGroup where
  name : String
  repos : List (List String)
deriving DecidableEq, Repr

/-- The `Event` tagged union from `domain/events.rs`. -/
inductive Event where
  | repoDiscovered (id : RepoId) (meta : RepoMeta)
  | scanCompleted
  | statusUpdated (id : RepoId) (status : RepoStatus)
  | fetchProgress (id : RepoId) (done total : Nat)
  | repoFetched (id : RepoId) (ok : Bool) (msg : Option String)
  | logLoaded (id : RepoId) (commits : List Commit)
  | error (id : Option RepoId) (msg : String)
  | quitRequested
deriving DecidableEq, Repr

/-- The `Command` tagged union from `app/commands.rs`. -/
inductive Command where
  | rescan (base : List String)
  | refreshStatus (ids : List RepoId)
  | fetchAll (prune : Bool)
  | openRepo (id : RepoId)
  | toggleGroup (name : String)
  | showLog (id : RepoId) (range : Option String) (limit : Nat)
  | quit
deriving DecidableEq, Repr

/-- Association-list model of `HashMap::insert`: overwrites any existing
binding for the key and keeps keys unique. -/
def mapInsert {α β : Type} [DecidableEq α] (m : List (α × β)) (k : α) (v : β) :
    List (α × β) :=
  (k, v) :: m.filter (fun p => decide (p.1 ≠ k))

/-- The key set of an association list (`HashMap::keys`). -/
def mapKeys {α β : Type} (m : List (α × β)) : List α := m.map Prod.fst

/-- Association-list lookup (`HashMap::get`). -/
def mapLookup {α β : Type} [DecidableEq α] (m : List (α × β)) (k : α) :
    Option β :=
  (m.find? (fun p => decide (p.1 = k))).map Prod.snd

/-- `ReadProjection` from `app/queries.rs`. -/
structure ReadProjection where
  repositories : List (RepoId × RepoMeta)
  statuses : List (RepoId × RepoStatus)
  groups : List (String × RepoGroup)
  scanning : Bool
  refreshing_status : Bool
deriving DecidableEq, Repr

/-- `ReadProjection::default()`. -/
def ReadProjection.empty : ReadProjection :=
  { repositories := [], statuses := [], groups := [],
    scanning := false, refreshing_status := false }

/-- `ReadProjection::apply` from `app/queries.rs`: the pure event fold. -/
def ReadProjection.apply (p : ReadProjection) (e : Event) : ReadProjection :=
  match e with
  | .repoDiscovered id meta =>
      { p with repositories := mapInsert p.repositories id meta }
  | .scanCompleted => { p with scanning := false }
  | .statusUpdated id status =>
      { p with statuses := mapInsert p.statuses id status }
  | .fetchProgress _ _ _ => p
  | .repoFetched _ _ _ => p
  | .logLoaded _ _ => p
  | .error _ _ => p
  | .quitRequested => p

/-! ## Discovery adapter (`adapters/discovery.rs`) -/

/-- `Path::parent` for a relative path given by its components: the parent of
the empty path is `None`, otherwise the path with the last component removed. -/
def pathParent : List String → Option (List String)
  | [] => none
  | xs => some xs.dropLast

/-- `Path::strip_prefix` on component lists: succeeds iff `base` is a
component-wise prefix, returning the remainder. -/
def stripPrefixComponents (p base : List String) : Option (List String) :=
  if base.isPrefixOf p then some (p.drop base.length) else none

/-- `FsDiscoveryAdapter::determine_auto_group` from `adapters/discovery.rs`. -/
def determine_auto_group (repo_path base_path : List String) : String :=
  match stripPrefixComponents repo_path base_path with
  | some relative_path =>
    match pathParent relative_path with
    | some parent =>
        if parent = [] then
          -- Repository is directly in base_path
          "Ungrouped"
        else
          -- First component after base_path decides the group
          match parent.head? with
          | some name => "Auto: " ++ name
          | none => "Ungrouped"
    | none => "Ungrouped"
  | none => "Ungrouped"

/-- One entry yielded by the `WalkDir` iterator, after the `filter_entry`
pruning: its path and whether `path/.git` is a directory. -/
structure DirEntry where
  path : List String
  hasGitDir : Bool
deriving DecidableEq, Repr

/-- `FsDiscoveryAdapter::find_repos`: walk the (already pruned) entry stream in
order; the first unreadable entry aborts the whole scan with an error
(`entry.context(...)?`), so no partial repository list is ever returned. -/
def find_repos (base_path : List String) :
    List (Except String DirEntry) → Except String (List RepoMeta)
  | [] => .ok []
  | .error e :: _ => .error ("Failed to read directory entry: " ++ e)
  | .ok entry :: rest =>
    match find_repos base_path rest with
    | .error e => .error e
    | .ok repos =>
        if entry.hasGitDir then
          .ok ({ name := entry.path.getLast?.getD ""
                 path := entry.path
                 auto_group := determine_auto_group entry.path base_path } :: repos)
        else
          .ok repos

/-- Rendering of a path for `RepoId` construction (`path.display()`). -/
def displayPath (p : List String) : String := String.intercalate "/" p

/-- `FsDiscoveryAdapter::scan`: run `find_repos`, then attach the
`"{name}#{path}"` identifier to each repository. -/
def scanAdapter (base_path : List String)
    (entries : List (Except String DirEntry)) :
    Except String (List (RepoId × RepoMeta)) :=
  match find_repos base_path entries with
  | .error e => .error e
  | .ok repos => .ok (repos.map (fun r => (r.name ++ "#" ++ displayPath r.path, r)))

/-! ## Claim C5: the auto-group law -/

theorem stripPrefixComponents_append (base l : List String) :
    stripPrefixComponents (base ++ l) base = some l := by
  unfold stripPrefixComponents
  rw [if_pos]
  · simp
  · exact List.isPrefixOf_iff_prefix.mpr (List.prefix_append base l)

/-- Claim C5: a repository that is a direct child of the scan root gets
auto-group `"Ungrouped"`; a repository at `base/X/...` (with at least one
intermediate directory `X`) gets auto-group `"Auto: " ++ X`. -/
theorem determine_auto_group_law (base : List String) (y x : String)
    (rest : List String) (hrest : rest ≠ []) :
    determine_auto_group (base ++ [y]) base = "Ungrouped" ∧
    determine_auto_group (base ++ x :: rest) base = "Auto: " ++ x := by
  constructor
  · unfold determine_auto_group
    rw [stripPrefixComponents_append]
    rfl
  · unfold determine_auto_group
    rw [stripPrefixComponents_append]
    cases rest with
    | nil => exact absurd rfl hrest
    | cons r rs =>
      show (if x :: (r :: rs).dropLast = [] then "Ungrouped" else _) = _
      rw [if_neg (by simp)]
      rfl

/-- Witness for C5 at a concrete scan root and repository paths. -/
theorem determine_auto_group_law_witness :
    determine_auto_group (["home", "base"] ++ ["b"]) ["home", "base"] =
      "Ungrouped" ∧
    determine_auto_group (["home", "base"] ++ "work" :: ["a"]) ["home", "base"] =
      "Auto: " ++ "work" :=
  determine_auto_group_law ["home", "base"] "b" "work" ["a"] (by decide)

/-! ## Git adapter model (`adapters/git.rs`)

git2 is external to the program; the adapter consumes it through a small call
contract. A `GitRepo` models one opened repository: its commit graph plus the
abstract resolution functions the adapter calls (`head`, `statuses`,
`branch_upstream_name`, `refname_to_id`, `revparse_single`,
`graph_ahead_behind`). -/

/-- One commit object of the underlying repository. -/
structure CommitNode where
  oid : Nat
  parents : List Nat
  time : Int
  summary : String
  authorName : String
  authorEmail : String
  offsetMinutes : Int
deriving DecidableEq, Repr

/-- The reference returned by `Repository::head()` when it succeeds. -/
structure HeadRef where
  isBranch : Bool
  shorthand : Option String
  name : Option String
  target : Option Nat
deriving DecidableEq, Repr

/-- One entry of the status diff: whether any `INDEX_*` flag intersects, and
whether any `WT_*` flag intersects (the two masks tested by the adapter). -/
structure StatusEntry where
  indexChanged : Bool
  wtChanged : Bool
deriving DecidableEq, Repr

/-- An opened git2 repository, as consumed by `GitAdapter`. -/
structure GitRepo where
  commits : List CommitNode
  head : Option HeadRef
  statusEntries : Except String (List StatusEntry)
  upstreamName : String → Except String (Option String)
  refToId : String → Except String Nat
  graphAheadBehind : Nat → Nat → Except String (Nat × Nat)
  revparse : String → Except String Nat

/-- `GitAdapter` state: the `repo_paths` registry plus the filesystem
(`Repository::open` keyed by path). -/
structure GitAdapterState where
  repoPaths : List (RepoId × List String)
  world : List String → Except String GitRepo

/-- `GitAdapter::register_repo`. -/
def registerRepo (a : GitAdapterState) (id : RepoId) (path : List String) :
    GitAdapterState :=
  { a with repoPaths := mapInsert a.repoPaths id path }

/-- `GitAdapter::get_repo_path`. -/
def getRepoPath (a : GitAdapterState) (id : RepoId) : Option (List String) :=
  mapLookup a.repoPaths id

/-- `Repository::open` with the adapter's error context attached. -/
def openRepoAt (a : GitAdapterState) (repo_path : List String) :
    Except String GitRepo :=
  match a.world repo_path with
  | .error e =>
      .error ("Failed to open git repository at " ++ displayPath repo_path ++ ": " ++ e)
  | .ok r => .ok r

/-- `GitAdapter::open_repo`: registry lookup, then `Repository::open`. -/
def openRepo (a : GitAdapterState) (id : RepoId) : Except String GitRepo :=
  match getRepoPath a id with
  | none => .error ("Repository path not found for ID: " ++ id)
  | some path => openRepoAt a path

/-- Display rendering of an object id (`format!("{}", oid)`). -/
def oidDisplay (oid : Nat) : String := toString oid

/-- Abbreviated hash used for a detached HEAD (`format!("{:.8}", oid)`). -/
def shortHash (oid : Nat) : String := (oidDisplay oid).take 8

/-- Commit lookup in the repository's object store. -/
def findCommit (r : GitRepo) (oid : Nat) : Option CommitNode :=
  r.commits.find? (fun c => decide (c.oid = oid))

/-- `git_repo.head().and_then(|r| r.peel_to_commit())` followed by
`commit.summary().unwrap_or("")`, defaulting to the `"No commits"` sentinel
when any step fails (`adapters/git.rs`, last_commit_summary). -/
def headCommitSummary (r : GitRepo) : String :=
  match r.head with
  | some h =>
    match h.target with
    | some t =>
      match findCommit r t with
      | some c => c.summary
      | none => "No commits"
    | none => "No commits"
  | none => "No commits"

/-- `GitAdapter::status` from `adapters/git.rs`, transcribed clause by
clause. The second registry lookup mirrors the source's `.unwrap()` after a
successful `open_repo` (it cannot fail there). -/
def gitStatus (a : GitAdapterState) (id : RepoId) : Except String RepoStatus :=
  match openRepo a id with
  | .error e => .error e
  | .ok git_repo =>
    match getRepoPath a id with
    | none => .error "unreachable: open_repo succeeded without a registered path"
    | some repo_path =>
      let name := repo_path.getLast?.getD ""
      let head := git_repo.head
      let branchInfo : Option String × Bool :=
        match head with
        | some reference =>
          if reference.isBranch then
            (reference.shorthand, false)
          else
            match reference.target with
            | some oid => (some (shortHash oid), true)
            | none => (none, true)
        | none => (none, false)
      match git_repo.statusEntries with
      | .error _ => .error "Failed to get git status"
      | .ok statuses =>
        let is_dirty := !statuses.isEmpty
        let has_staged := statuses.any (·.indexChanged)
        let has_unstaged := statuses.any (·.wtChanged)
        let last_commit_summary := headCommitSummary git_repo
        let aheadBehind : Nat × Nat :=
          match head with
          | some reference =>
            match reference.target with
            | some local_oid =>
              match reference.name with
              | some ref_name =>
                match git_repo.upstreamName ref_name with
                | .ok upstream_ref =>
                  match upstream_ref with
                  | some upstream_str =>
                    match git_repo.refToId upstream_str with
                    | .ok upstream_oid =>
                      match git_repo.graphAheadBehind local_oid upstream_oid with
                      | .ok ab => ab
                      | .error _ => (0, 0)
                    | .error _ => (0, 0)
                  | none => (0, 0)
                | .error _ => (0, 0)
              | none => (0, 0)
            | none => (0, 0)
          | none => (0, 0)
        .ok { name := name
              path := repo_path
              branch_name := branchInfo.1
              is_dirty := is_dirty
              ahead_count := aheadBehind.1
              behind_count := aheadBehind.2
              is_detached := branchInfo.2
              has_staged := has_staged
              has_unstaged := has_unstaged
              last_commit_summary := last_commit_summary }

/-- `GitAdapter::fetch` from `adapters/git.rs`: resolve the remote by name,
then run the transfer; modelled with the remote table and transfer outcome as
abstract inputs. -/
def gitFetch (a : GitAdapterState) (id : RepoId) (remote : String)
    (remotes : List String) (transfer : Bool → Except String Unit)
    (prune : Bool) : Except String Unit :=
  match openRepo a id with
  | .error e => .error e
  | .ok _ =>
    if remote ∈ remotes then
      transfer prune
    else
      .error ("Remote " ++ remote ++ " not found")

/-! ### Revwalk model

`revwalk.push`/`hide`/`push_head` accumulate root sets; iterating the walk
yields the commits reachable from the pushed roots and not reachable from the
hidden roots, in `Sort::TIME` (reverse-chronological) order. Reachability over
the finite parent graph is computed by fuelled closure. -/

/-- Parents of an oid in the commit graph (no parents if the oid is absent). -/
def parentsOf (r : GitRepo) (o : Nat) : List Nat :=
  match findCommit r o with
  | some c => c.parents
  | none => []

/-- One closure step: add every parent of every known-reachable oid. -/
def reachStep (r : GitRepo) (seen : List Nat) : List Nat :=
  (seen ++ seen.flatMap (parentsOf r)).dedup

/-- Fuelled closure iteration. -/
def reachN : Nat → GitRepo → List Nat → List Nat
  | 0, _, seen => seen
  | n + 1, r, seen => reachN n r (reachStep r seen)

/-- Oids reachable from the given roots: `commits.length` steps suffice to
saturate any chain in the graph. -/
def reachable (r : GitRepo) (roots : List Nat) : List Nat :=
  reachN r.commits.length r roots

/-- Accumulated revwalk roots. -/
structure RevWalk where
  pushed : List Nat
  hidden : List Nat
deriving DecidableEq, Repr

/-- `revwalk.push_head()`: resolve HEAD to an oid; fails on an unborn HEAD. -/
def pushHead (r : GitRepo) (w : RevWalk) : Except String RevWalk :=
  match r.head with
  | some h =>
    match h.target with
    | some t => .ok { w with pushed := w.pushed ++ [t] }
    | none => .error "reference has no target"
  | none => .error "failed to resolve HEAD"

/-- The ordering of `Sort::TIME`: newer commit time first. -/
def timeDescRel (a b : CommitNode) : Prop := b.time ≤ a.time

instance : DecidableRel timeDescRel := fun a b =>
  inferInstanceAs (Decidable (b.time ≤ a.time))

instance : IsTotal CommitNode timeDescRel :=
  ⟨fun a b => (le_total b.time a.time).elim Or.inl Or.inr⟩

instance : IsTrans CommitNode timeDescRel :=
  ⟨fun _ _ _ hab hbc => le_trans hbc hab⟩

/-- Reverse-chronological ordering of a commit list. -/
def sortByTimeDesc (l : List CommitNode) : List CommitNode :=
  List.insertionSort timeDescRel l

/-- The domain `Commit` built from one walked commit (`find_commit` plus the
field extraction in the adapter's loop body). -/
def renderCommit (c : CommitNode) : Commit :=
  { id := oidDisplay c.oid
    message := c.summary
    author := { name := c.authorName, email := c.authorEmail }
    timestamp := { seconds := c.time, offset_minutes := c.offsetMinutes } }

/-- Iterating the finished revwalk with the `enumerate`/`break` truncation at
`limit`, rendering each commit. -/
def walkCommits (r : GitRepo) (w : RevWalk) (limit : Nat) : List Commit :=
  (((sortByTimeDesc (r.commits.filter (fun c =>
      decide (c.oid ∈ reachable r w.pushed) &&
      decide (c.oid ∉ reachable r w.hidden)))).take limit).map renderCommit)

/-- `str::split("..")` on the character list: splits at every
(leftmost-first) occurrence of `".."`. -/
def splitOnDotDot : List Char → List (List Char)
  | [] => [[]]
  | '.' :: '.' :: rest => [] :: splitOnDotDot rest
  | c :: rest =>
    match splitOnDotDot rest with
    | [] => [[c]]
    | h :: t => (c :: h) :: t

/-- `range.split("..").collect::<Vec<_>>()`. -/
def splitRange (s : String) : List String :=
  (splitOnDotDot s.toList).map List.asString

/-- `range.contains("..")`, expressed through the same split the adapter then
performs: the pattern occurs iff splitting yields more than one part. -/
def containsDotDot (s : String) : Bool := (splitRange s).length != 1

/-- The range-parsing block of `GitAdapter::log`, transcribed clause by
clause: empty or `"HEAD"` range pushes HEAD; a range containing `".."` is
split and, only when it has exactly two parts, the left part is pushed and
hidden and the right part (or HEAD when empty) pushed; any other string is
revparsed and pushed. -/
def logWalk (git_repo : GitRepo) (range : String) : Except String RevWalk :=
  let walk0 : RevWalk := { pushed := [], hidden := [] }
  if range == "" || range == "HEAD" then
    pushHead git_repo walk0
  else if containsDotDot range then
    let parts := splitRange range
    if parts.length = 2 then
      let fromPart := parts.getD 0 ""
      let toPart := parts.getD 1 ""
      let afterFrom : Except String RevWalk :=
        if !(fromPart == "") then
          match git_repo.revparse fromPart with
          | .error e => .error e
          | .ok from_oid =>
              .ok { walk0 with
                    pushed := walk0.pushed ++ [from_oid]
                    hidden := walk0.hidden ++ [from_oid] }
        else
          .ok walk0
      match afterFrom with
      | .error e => .error e
      | .ok w1 =>
        if !(toPart == "") then
          match git_repo.revparse toPart with
          | .error e => .error e
          | .ok to_oid => .ok { w1 with pushed := w1.pushed ++ [to_oid] }
        else
          pushHead git_repo w1
    else
      -- split into other than two parts: nothing is pushed or hidden
      .ok walk0
  else
    match git_repo.revparse range with
    | .error e => .error e
    | .ok oid => .ok { walk0 with pushed := walk0.pushed ++ [oid] }

/-- `GitAdapter::log` from `adapters/git.rs`: open, parse the range into a
revwalk, iterate with the `limit` truncation. -/
def gitLog (a : GitAdapterState) (id : RepoId) (range : String)
    (limit : Nat) : Except String (List Commit) :=
  match openRepo a id with
  | .error e => .error e
  | .ok git_repo =>
    match logWalk git_repo range with
    | .error e => .error e
    | .ok w => .ok (walkCommits git_repo w limit)

/-! ### Reachability lemmas -/

theorem mem_reachStep_iff (r : GitRepo) (seen : List Nat) (x : Nat) :
    x ∈ reachStep r seen ↔ x ∈ seen ∨ ∃ s ∈ seen, x ∈ parentsOf r s := by
  simp [reachStep]

theorem reachN_congr (n : Nat) (r : GitRepo) (a b : List Nat)
    (h : ∀ y, y ∈ a ↔ y ∈ b) (x : Nat) :
    x ∈ reachN n r a ↔ x ∈ reachN n r b := by
  induction n generalizing a b with
  | zero => exact h x
  | succ n ih =>
    show x ∈ reachN n r (reachStep r a) ↔ x ∈ reachN n r (reachStep r b)
    refine ih _ _ (fun y => ?_)
    rw [mem_reachStep_iff, mem_reachStep_iff]
    constructor
    · rintro (hy | ⟨s, hs, hp⟩)
      · exact Or.inl ((h y).mp hy)
      · exact Or.inr ⟨s, (h s).mp hs, hp⟩
    · rintro (hy | ⟨s, hs, hp⟩)
      · exact Or.inl ((h y).mpr hy)
      · exact Or.inr ⟨s, (h s).mpr hs, hp⟩

theorem mem_reachN_append (n : Nat) (r : GitRepo) (s1 s2 : List Nat) (x : Nat) :
    x ∈ reachN n r (s1 ++ s2) ↔ x ∈ reachN n r s1 ∨ x ∈ reachN n r s2 := by
  induction n generalizing s1 s2 with
  | zero => simp [reachN]
  | succ n ih =>
    show x ∈ reachN n r (reachStep r (s1 ++ s2)) ↔
      x ∈ reachN n r (reachStep r s1) ∨ x ∈ reachN n r (reachStep r s2)
    rw [reachN_congr n r (reachStep r (s1 ++ s2))
          (reachStep r s1 ++ reachStep r s2) (fun y => ?_) x, ih]
    rw [List.mem_append, mem_reachStep_iff, mem_reachStep_iff, mem_reachStep_iff]
    constructor
    · rintro (hy | ⟨s, hs, hp⟩)
      · rcases List.mem_append.mp hy with h1 | h2
        · exact Or.inl (Or.inl h1)
        · exact Or.inr (Or.inl h2)
      · rcases List.mem_append.mp hs with h1 | h2
        · exact Or.inl (Or.inr ⟨s, h1, hp⟩)
        · exact Or.inr (Or.inr ⟨s, h2, hp⟩)
    · rintro ((hy | ⟨s, hs, hp⟩) | (hy | ⟨s, hs, hp⟩))
      · exact Or.inl (List.mem_append.mpr (Or.inl hy))
      · exact Or.inr ⟨s, List.mem_append.mpr (Or.inl hs), hp⟩
      · exact Or.inl (List.mem_append.mpr (Or.inr hy))
      · exact Or.inr ⟨s, List.mem_append.mpr (Or.inr hs), hp⟩

theorem mem_reachable_pair (r : GitRepo) (a b x : Nat) :
    x ∈ reachable r [a, b] ↔ x ∈ reachable r [a] ∨ x ∈ reachable r [b] :=
  mem_reachN_append r.commits.length r [a] [b] x

/-- Pushing A then hiding A, next to pushing B, walks exactly the commits
reachable from B and not from A: the pushed copy of A is cancelled by its own
hide. -/
theorem walkCommits_pair (repo : GitRepo) (a b : Nat) (limit : Nat) :
    walkCommits repo ⟨[a, b], [a]⟩ limit = walkCommits repo ⟨[b], [a]⟩ limit := by
  unfold walkCommits
  congr 3
  apply List.filter_congr
  intro c _
  by_cases h1 : c.oid ∈ reachable repo [a]
  · simp [h1]
  · simp [h1, mem_reachable_pair]

/-! ## Claim C10: unresolvable HEAD degrades, it does not fail -/

/-- Claim C10: when `Repository::head()` fails (unborn branch / no commits),
`status(id)` still succeeds, with `branch_name = None`, `is_detached = false`
and the `"No commits"` sentinel as the last-commit summary. -/
theorem gitStatus_unborn_head (a : GitAdapterState) (id : RepoId)
    (path : List String) (repo : GitRepo) (entries : List StatusEntry)
    (hpath : getRepoPath a id = some path)
    (hopen : a.world path = .ok repo)
    (hhead : repo.head = none)
    (hentries : repo.statusEntries = .ok entries) :
    ∃ st, gitStatus a id = .ok st ∧ st.branch_name = none ∧
      st.is_detached = false ∧ st.last_commit_summary = "No commits" := by
  simp only [gitStatus, openRepo, openRepoAt, hpath, hopen, hhead, hentries,
    headCommitSummary]
  exact ⟨_, rfl, rfl, rfl, rfl⟩

/-- A repository with no commits and an unresolvable HEAD. -/
def emptyGitRepo : GitRepo where
  commits := []
  head := none
  statusEntries := .ok []
  upstreamName := fun _ => .error "no upstream"
  refToId := fun _ => .error "unknown ref"
  graphAheadBehind := fun _ _ => .error "unavailable"
  revparse := fun _ => .error "unresolvable"

/-- An adapter state with the empty repository registered as `"r1"`. -/
def demoAdapter : GitAdapterState where
  repoPaths := [("r1", ["base", "r1"])]
  world := fun p =>
    if p = ["base", "r1"] then .ok emptyGitRepo else .error "not a repository"

/-- Witness for C10 at the concrete empty repository. -/
theorem gitStatus_unborn_head_witness :
    ∃ st, gitStatus demoAdapter "r1" = .ok st ∧ st.branch_name = none ∧
      st.is_detached = false ∧ st.last_commit_summary = "No commits" :=
  gitStatus_unborn_head demoAdapter "r1" ["base", "r1"] emptyGitRepo []
    rfl rfl rfl rfl

/-! ## Claim C6: `log` range semantics -/

theorem splitRange_ne_empty {range : String} {sa sb : String}
    (hsplit : splitRange range = [sa, sb]) : range ≠ "" ∧ range ≠ "HEAD" := by
  constructor
  · intro h
    rw [h, show splitRange "" = [""] from rfl] at hsplit
    simp at hsplit
  · intro h
    rw [h, show splitRange "HEAD" = ["HEAD"] from rfl] at hsplit
    simp at hsplit

theorem logWalk_two_parts (repo : GitRepo) (range sa sb : String)
    (aOid bOid : Nat) (hsplit : splitRange range = [sa, sb]) (hsa : sa ≠ "")
    (hsb : sb ≠ "") (hra : repo.revparse sa = .ok aOid)
    (hrb : repo.revparse sb = .ok bOid) :
    logWalk repo range = .ok { pushed := [aOid, bOid], hidden := [aOid] } := by
  obtain ⟨hne1, hne2⟩ := splitRange_ne_empty hsplit
  unfold logWalk
  rw [show (range == "" || range == "HEAD") = false by simp [hne1, hne2]]
  rw [show containsDotDot range = true by simp [containsDotDot, hsplit]]
  have hb1 : (sa == "") = false := by simp [hsa]
  have hb2 : (sb == "") = false := by simp [hsb]
  simp [hsplit, hb1, hb2, hra, hrb]

theorem logWalk_left_omitted (repo : GitRepo) (range sb : String) (bOid : Nat)
    (hsplit : splitRange range = ["", sb]) (hsb : sb ≠ "")
    (hrb : repo.revparse sb = .ok bOid) :
    logWalk repo range = .ok { pushed := [bOid], hidden := [] } := by
  obtain ⟨hne1, hne2⟩ := splitRange_ne_empty hsplit
  unfold logWalk
  rw [show (range == "" || range == "HEAD") = false by simp [hne1, hne2]]
  rw [show containsDotDot range = true by simp [containsDotDot, hsplit]]
  have hb2 : (sb == "") = false := by simp [hsb]
  simp [hsplit, hb2, hrb]

theorem logWalk_right_omitted (repo : GitRepo) (range sa : String)
    (aOid : Nat) (h : HeadRef) (t : Nat)
    (hsplit : splitRange range = [sa, ""]) (hsa : sa ≠ "")
    (hra : repo.revparse sa = .ok aOid) (hhead : repo.head = some h)
    (htarget : h.target = some t) :
    logWalk repo range = .ok { pushed := [aOid, t], hidden := [aOid] } := by
  obtain ⟨hne1, hne2⟩ := splitRange_ne_empty hsplit
  unfold logWalk
  rw [show (range == "" || range == "HEAD") = false by simp [hne1, hne2]]
  rw [show containsDotDot range = true by simp [containsDotDot, hsplit]]
  have hb1 : (sa == "") = false := by simp [hsa]
  simp [hsplit, hb1, hra, pushHead, hhead, htarget]

theorem logWalk_empty_or_head (repo : GitRepo) (h : HeadRef) (t : Nat)
    (hhead : repo.head = some h) (htarget : h.target = some t) :
    logWalk repo "" = .ok { pushed := [t], hidden := [] } ∧
    logWalk repo "HEAD" = .ok { pushed := [t], hidden := [] } := by
  constructor <;>
    simp [logWalk, pushHead, hhead, htarget]

theorem logWalk_single_unresolvable (repo : GitRepo) (range : String)
    (e : String) (hsplit : splitRange range = [range]) (hne1 : range ≠ "")
    (hne2 : range ≠ "HEAD") (hr : repo.revparse range = .error e) :
    logWalk repo range = .error e := by
  unfold logWalk
  rw [show (range == "" || range == "HEAD") = false by simp [hne1, hne2]]
  rw [show containsDotDot range = false by simp [containsDotDot, hsplit]]
  simp [hr]

theorem logWalk_left_unresolvable (repo : GitRepo) (range sa sb : String)
    (e : String) (hsplit : splitRange range = [sa, sb]) (hsa : sa ≠ "")
    (hra : repo.revparse sa = .error e) :
    logWalk repo range = .error e := by
  obtain ⟨hne1, hne2⟩ := splitRange_ne_empty hsplit
  unfold logWalk
  rw [show (range == "" || range == "HEAD") = false by simp [hne1, hne2]]
  rw [show containsDotDot range = true by simp [containsDotDot, hsplit]]
  have hb1 : (sa == "") = false := by simp [hsa]
  simp [hsplit, hb1, hra]

/-- Reverse-chronological order on rendered commits. -/
def secondsDescRel (x y : Commit) : Prop :=
  y.timestamp.seconds ≤ x.timestamp.seconds

theorem walkCommits_sorted (repo : GitRepo) (w : RevWalk) (limit : Nat) :
    List.Sorted secondsDescRel (walkCommits repo w limit) := by
  unfold walkCommits
  rw [List.Sorted, List.pairwise_map]
  have hs : List.Pairwise timeDescRel (sortByTimeDesc (repo.commits.filter
      (fun c => decide (c.oid ∈ reachable repo w.pushed) &&
        decide (c.oid ∉ reachable repo w.hidden)))) :=
    List.sorted_insertionSort timeDescRel _
  exact hs.sublist (List.take_sublist _ _)

theorem walkCommits_length (repo : GitRepo) (w : RevWalk) (limit : Nat) :
    (walkCommits repo w limit).length ≤ limit := by
  unfold walkCommits
  rw [List.length_map]
  exact List.length_take_le ..

/-- Claim C6, amended. For a registered, openable repository: an empty or
`"HEAD"` range walks the commits reachable from HEAD; a two-part range
`A..B` walks the commits reachable from B and not from A (pushing and hiding
A cancels the push), with an omitted left side meaning no hide and an omitted
right side defaulting to HEAD; every successful result is
reverse-chronological by commit time and at most `limit` long; an
unresolvable revision fails the call. The original claim's "an unparsable
range fails" clause is false — a range splitting on `".."` into other than
two parts silently succeeds with an empty walk (see the counterexample) — so
this theorem asserts failure only for unresolvable revisions. -/
theorem gitLog_range_semantics (a : GitAdapterState) (id : RepoId)
    (path : List String) (repo : GitRepo) (limit : Nat)
    (hpath : getRepoPath a id = some path)
    (hopen : a.world path = .ok repo) :
    (∀ h t, repo.head = some h → h.target = some t →
      gitLog a id "" limit = .ok (walkCommits repo ⟨[t], []⟩ limit) ∧
      gitLog a id "HEAD" limit = .ok (walkCommits repo ⟨[t], []⟩ limit)) ∧
    (∀ range sa sb aOid bOid, splitRange range = [sa, sb] → sa ≠ "" →
      sb ≠ "" → repo.revparse sa = .ok aOid → repo.revparse sb = .ok bOid →
      gitLog a id range limit = .ok (walkCommits repo ⟨[bOid], [aOid]⟩ limit)) ∧
    (∀ range sb bOid, splitRange range = ["", sb] → sb ≠ "" →
      repo.revparse sb = .ok bOid →
      gitLog a id range limit = .ok (walkCommits repo ⟨[bOid], []⟩ limit)) ∧
    (∀ range sa aOid h t, splitRange range = [sa, ""] → sa ≠ "" →
      repo.revparse sa = .ok aOid → repo.head = some h → h.target = some t →
      gitLog a id range limit = .ok (walkCommits repo ⟨[aOid, t], [aOid]⟩ limit)) ∧
    (∀ range cs, gitLog a id range limit = .ok cs →
      cs.length ≤ limit ∧ List.Sorted secondsDescRel cs) ∧
    (∀ range e, splitRange range = [range] → range ≠ "" → range ≠ "HEAD" →
      repo.revparse range = .error e → gitLog a id range limit = .error e) ∧
    (∀ range sa sb e, splitRange range = [sa, sb] → sa ≠ "" →
      repo.revparse sa = .error e → gitLog a id range limit = .error e) := by
  have hopenRepo : openRepo a id = .ok repo := by
    simp [openRepo, openRepoAt, hpath, hopen]
  refine ⟨?_, ?_, ?_, ?_, ?_, ?_, ?_⟩
  · intro h t hhead htarget
    obtain ⟨h1, h2⟩ := logWalk_empty_or_head repo h t hhead htarget
    constructor <;> simp [gitLog, hopenRepo, h1, h2]
  · intro range sa sb aOid bOid hsplit hsa hsb hra hrb
    rw [show walkCommits repo ⟨[bOid], [aOid]⟩ limit =
          walkCommits repo ⟨[aOid, bOid], [aOid]⟩ limit from
        (walkCommits_pair repo aOid bOid limit).symm]
    simp [gitLog, hopenRepo, logWalk_two_parts repo range sa sb aOid bOid
      hsplit hsa hsb hra hrb]
  · intro range sb bOid hsplit hsb hrb
    simp [gitLog, hopenRepo, logWalk_left_omitted repo range sb bOid
      hsplit hsb hrb]
  · intro range sa aOid h t hsplit hsa hra hhead htarget
    simp [gitLog, hopenRepo, logWalk_right_omitted repo range sa aOid h t
      hsplit hsa hra hhead htarget]
  · intro range cs hcs
    rw [gitLog, hopenRepo] at hcs
    simp only at hcs
    rcases hw : logWalk repo range with e | w
    · rw [hw] at hcs
      simp at hcs
    · rw [hw] at hcs
      simp at hcs
      rw [← hcs]
      exact ⟨walkCommits_length repo w limit, walkCommits_sorted repo w limit⟩
  · intro range e hsplit hne1 hne2 hr
    simp [gitLog, hopenRepo,
      logWalk_single_unresolvable repo range e hsplit hne1 hne2 hr]
  · intro range sa sb e hsplit hsa hra
    simp [gitLog, hopenRepo,
      logWalk_left_unresolvable repo range sa sb e hsplit hsa hra]

/-- A two-commit repository on branch `main`. -/
def twoCommitRepo : GitRepo where
  commits :=
    [ { oid := 1, parents := [], time := 10, summary := "init",
        authorName := "ann", authorEmail := "ann@example.com",
        offsetMinutes := 0 },
      { oid := 2, parents := [1], time := 20, summary := "second",
        authorName := "bob", authorEmail := "bob@example.com",
        offsetMinutes := 0 } ]
  head := some { isBranch := true, shorthand := some "main",
                 name := some "refs/heads/main", target := some 2 }
  statusEntries := .ok []
  upstreamName := fun _ => .error "no upstream"
  refToId := fun _ => .error "unknown ref"
  graphAheadBehind := fun _ _ => .error "unavailable"
  revparse := fun s =>
    if s = "main" then .ok 2
    else if s = "c1" then .ok 1
    else .error ("unresolvable: " ++ s)

/-- An adapter state with the two-commit repository registered as `"r2"`. -/
def logAdapter : GitAdapterState where
  repoPaths := [("r2", ["base", "r2"])]
  world := fun p =>
    if p = ["base", "r2"] then .ok twoCommitRepo else .error "not a repository"

/-- Counterexample to C6 as stated: the range `"a..b..c"` does not parse as a
two-part range — the adapter's split yields three parts, which its own
branch condition rejects — yet the call succeeds with an empty commit list
instead of failing. Here even every revision is unresolvable
(`demoAdapter`'s repo rejects all revparses), so no revision lookup rescues
the call either. -/
theorem gitLog_malformed_range_succeeds :
    gitLog demoAdapter "r1" "a..b..c" 5 = .ok [] ∧
    (gitLog demoAdapter "r1" "a..b..c" 5).isOk = true := by
  constructor <;> rfl

/-- Witness for C6 (amended) at the two-commit repository: the range
`"c1..main"` resolves both sides and walks reachable-from-`main` minus
reachable-from-`c1`. -/
theorem gitLog_range_semantics_witness :
    gitLog logAdapter "r2" "c1..main" 5 =
      .ok (walkCommits twoCommitRepo ⟨[2], [1]⟩ 5) :=
  ((gitLog_range_semantics logAdapter "r2" ["base", "r2"] twoCommitRepo 5
      rfl rfl).2.1) "c1..main" "c1" "main" 1 2 rfl (by decide) (by decide)
    rfl rfl

/-! ## Orchestrator (`services/app_service.rs`)

Each background task (`tasks.spawn` + inner `spawn_blocking`) completes with a
joined result `Except String (Except String T)`: the outer layer is the task
join (panic → `error`), the inner layer the adapter call's own result. The
`*TaskEvents` functions transcribe the `match result` blocks that turn one
completion into the events sent on the bus. -/

/-- One unit of background work. The first four constructors are the tasks
`AppService` spawns; `emitter` models a completed task still draining its
event sends into the unbounded channel one at a time (per-task send order is
preserved, sends from different tasks interleave). -/
inductive Op where
  | scanOp (base : List String)
  | statusOp (id : RepoId)
  | fetchOp (id : RepoId) (remote : String) (prune : Bool)
  | logOp (id : RepoId) (range : String) (limit : Nat)
  | emitter (evs : List Event)
deriving DecidableEq, Repr

/-- Events sent by a finished discovery task (`start_discovery_for_path`):
every found repository, then `ScanCompleted`; an adapter or task failure
becomes one unscoped `Error`. -/
def scanTaskEvents
    (joined : Except String (Except String (List (RepoId × RepoMeta)))) :
    List Event :=
  match joined with
  | .ok (.ok repos) =>
      repos.map (fun r => Event.repoDiscovered r.1 r.2) ++ [Event.scanCompleted]
  | .ok (.error e) => [Event.error none ("Discovery failed: " ++ e)]
  | .error e => [Event.error none ("Discovery task failed: " ++ e)]

/-- Events sent by a finished status task (`refresh_repository_status`). -/
def statusTaskEvents (id : RepoId)
    (joined : Except String (Except String RepoStatus)) : List Event :=
  match joined with
  | .ok (.ok status) => [Event.statusUpdated id status]
  | .ok (.error e) => [Event.error (some id) ("Status update failed: " ++ e)]
  | .error e => [Event.error (some id) ("Status task failed: " ++ e)]

/-- Events sent by a finished fetch task (`fetch_repository`): every branch,
success or failure, sends exactly one `RepoFetched`. -/
def fetchTaskEvents (id : RepoId) (remote : String)
    (joined : Except String (Except String Unit)) : List Event :=
  match joined with
  | .ok (.ok _) =>
      [Event.repoFetched id true (some ("Successfully fetched from " ++ remote))]
  | .ok (.error e) => [Event.repoFetched id false (some ("Fetch failed: " ++ e))]
  | .error e => [Event.repoFetched id false (some ("Fetch task failed: " ++ e))]

/-- Events sent by a finished log task (`load_repository_log`). -/
def logTaskEvents (id : RepoId)
    (joined : Except String (Except String (List Commit))) : List Event :=
  match joined with
  | .ok (.ok commits) => [Event.logLoaded id commits]
  | .ok (.error e) => [Event.error (some id) ("Log loading failed: " ++ e)]
  | .error e => [Event.error (some id) ("Log loading task failed: " ++ e)]

/-- Is an event the `Error` variant? -/
def isErrorEvent : Event → Bool
  | .error _ _ => true
  | _ => false

/-- What `AppService::handle_command` does synchronously: the events it sends
directly on the bus and the background tasks it spawns. -/
structure CmdOutput where
  events : List Event
  spawned : List Op
deriving DecidableEq, Repr

/-- `AppService::handle_command`, transcribed arm by arm. `FetchAll` snapshots
`projection.repositories.keys()` and spawns one fetch per id against
`"origin"`; `ShowLog` defaults a missing range to `"HEAD"`; `Quit` sends
`QuitRequested`; `OpenRepo` sends a scoped not-implemented `Error`;
`ToggleGroup` does nothing. -/
def handleCommand (proj : ReadProjection) : Command → CmdOutput
  | .rescan base => ⟨[], [Op.scanOp base]⟩
  | .refreshStatus ids => ⟨[], ids.map Op.statusOp⟩
  | .fetchAll prune =>
      ⟨[], (mapKeys proj.repositories).map (fun id => Op.fetchOp id "origin" prune)⟩
  | .openRepo id =>
      ⟨[Event.error (some id) "External app opening not implemented yet"], []⟩
  | .toggleGroup _ => ⟨[], []⟩
  | .showLog id range limit => ⟨[], [Op.logOp id (range.getD "HEAD") limit]⟩
  | .quit => ⟨[Event.quitRequested], []⟩

/-- One primitive effect of `AppService::handle_event`. -/
inductive EvAction where
  | forward (e : Event)
  | fold (e : Event)
  | register (id : RepoId) (path : List String)
  | spawn (op : Op)
deriving DecidableEq, Repr

/-- The per-arm tail of `handle_event` after the initial forward:
`RepoDiscovered` folds, registers the path on the git adapter, then spawns a
status refresh; `RepoFetched{ok=true}` spawns a status refresh then folds;
`QuitRequested` does nothing further; every other arm just folds. -/
def eventFoldActions : Event → List EvAction
  | .repoDiscovered id meta =>
      [EvAction.fold (Event.repoDiscovered id meta),
       EvAction.register id meta.path,
       EvAction.spawn (Op.statusOp id)]
  | .scanCompleted => [EvAction.fold Event.scanCompleted]
  | .statusUpdated id st => [EvAction.fold (Event.statusUpdated id st)]
  | .fetchProgress id d t => [EvAction.fold (Event.fetchProgress id d t)]
  | .repoFetched id ok msg =>
      if ok then
        [EvAction.spawn (Op.statusOp id), EvAction.fold (Event.repoFetched id ok msg)]
      else
        [EvAction.fold (Event.repoFetched id ok msg)]
  | .logLoaded id cs => [EvAction.fold (Event.logLoaded id cs)]
  | .error i m => [EvAction.fold (Event.error i m)]
  | .quitRequested => []

/-- `AppService::handle_event`: forward to the external channel first, then
run the arm's own effects. -/
def handleEventActions (e : Event) : List EvAction :=
  EvAction.forward e :: eventFoldActions e

/-- Whether one `run_event_loop` iteration breaks out of the loop. -/
inductive LoopOutcome where
  | continueLoop
  | exitLoop
deriving DecidableEq, Repr

/-- The event branch of `run_event_loop`: a received event is handled (its
result only logged) and the loop continues; only a closed channel (`None`)
breaks the loop. -/
def eventBranchOutcome : Option Event → LoopOutcome
  | some _ => LoopOutcome.continueLoop
  | none => LoopOutcome.exitLoop

/-- The command branch of `run_event_loop`: never breaks the loop — a closed
command channel is only logged. -/
def commandBranchOutcome : Option Command → LoopOutcome
  | some _ => LoopOutcome.continueLoop
  | none => LoopOutcome.continueLoop

/-- The orchestrator's state: the projection, the git adapter's path registry,
the internal event channel's queued events, the events forwarded to the
external subscriber channel, and the in-flight background work. -/
structure SysState where
  proj : ReadProjection
  registered : List RepoId
  queue : List Event
  external : List Event
  inflight : List Op
deriving DecidableEq, Repr

/-- Run a list of handler actions against the state. -/
def execActions (s : SysState) : List EvAction → SysState
  | [] => s
  | EvAction.forward e :: rest =>
      execActions { s with external := s.external ++ [e] } rest
  | EvAction.fold e :: rest =>
      execActions { s with proj := s.proj.apply e } rest
  | EvAction.register id _ :: rest =>
      execActions { s with registered := id :: s.registered } rest
  | EvAction.spawn op :: rest =>
      execActions { s with inflight := op :: s.inflight } rest

/-- The startup state of `AppService::new`. -/
def initState : SysState :=
  { proj := ReadProjection.empty, registered := [], queue := [],
    external := [], inflight := [] }

/-- The orchestrator's transition relation. A status task can complete
successfully only if its id is registered (the adapter's `status` fails on an
unregistered id); every other completion is unconstrained. -/
inductive Step : SysState → SysState → Prop where
  | command (s : SysState) (c : Command) :
      Step s { s with
        queue := s.queue ++ (handleCommand s.proj c).events,
        inflight := s.inflight ++ (handleCommand s.proj c).spawned }
  | scanDone (s : SysState) (base : List String)
      (joined : Except String (Except String (List (RepoId × RepoMeta))))
      (hmem : Op.scanOp base ∈ s.inflight) :
      Step s { s with
        inflight := (s.inflight.erase (Op.scanOp base)) ++
          [Op.emitter (scanTaskEvents joined)] }
  | statusDone (s : SysState) (id : RepoId)
      (joined : Except String (Except String RepoStatus))
      (hmem : Op.statusOp id ∈ s.inflight)
      (hreg : (∃ st, joined = .ok (.ok st)) → id ∈ s.registered) :
      Step s { s with
        inflight := (s.inflight.erase (Op.statusOp id)) ++
          [Op.emitter (statusTaskEvents id joined)] }
  | fetchDone (s : SysState) (id : RepoId) (remote : String) (prune : Bool)
      (joined : Except String (Except String Unit))
      (hmem : Op.fetchOp id remote prune ∈ s.inflight) :
      Step s { s with
        inflight := (s.inflight.erase (Op.fetchOp id remote prune)) ++
          [Op.emitter (fetchTaskEvents id remote joined)] }
  | logDone (s : SysState) (id : RepoId) (range : String) (limit : Nat)
      (joined : Except String (Except String (List Commit)))
      (hmem : Op.logOp id range limit ∈ s.inflight) :
      Step s { s with
        inflight := (s.inflight.erase (Op.logOp id range limit)) ++
          [Op.emitter (logTaskEvents id joined)] }
  | emit (s : SysState) (e : Event) (rest : List Event)
      (hmem : Op.emitter (e :: rest) ∈ s.inflight) :
      Step s { s with
        inflight := (s.inflight.erase (Op.emitter (e :: rest))) ++
          [Op.emitter rest],
        queue := s.queue ++ [e] }
  | processEvent (s : SysState) (e : Event) (rest : List Event)
      (hqueue : s.queue = e :: rest) :
      Step s (execActions { s with queue := rest } (handleEventActions e))

/-- States the orchestrator can reach from startup. -/
def Reachable (s : SysState) : Prop :=
  Relation.ReflTransGen Step initState s


/-! ## Claim C1: what actually stops the event loop -/

/-- Claim C1 evaluated against the code: `handle_command(Quit)` does send
`QuitRequested`, but processing `QuitRequested` does NOT exit the loop — the
`QuitRequested` arm of `handle_event` returns `Ok(())` like every other arm
(despite its own comment "This will break the event loop"), and
`run_event_loop` discards that result and keeps looping; the only break in the
event branch is a closed channel. -/
theorem quit_does_not_stop_loop :
    (handleCommand ReadProjection.empty Command.quit).events =
      [Event.quitRequested] ∧
    eventBranchOutcome (some Event.quitRequested) = LoopOutcome.continueLoop ∧
    eventBranchOutcome (some Event.quitRequested) ≠ LoopOutcome.exitLoop ∧
    (∀ e : Event, eventBranchOutcome (some e) = LoopOutcome.continueLoop) ∧
    (∀ c : Option Command, commandBranchOutcome c = LoopOutcome.continueLoop) :=
  ⟨rfl, rfl, by decide, fun _ => rfl, fun c => by cases c <;> rfl⟩

/-! ## Claim C2: how adapter failures surface -/

/-- Counterexample to C2 as stated: a failed `fetch` adapter call is not
converted into an `Error` event — `fetch_repository` sends
`RepoFetched{ok:false}` instead, so the resulting event list contains no
`Error` at all. -/
theorem fetch_failure_not_error_event :
    fetchTaskEvents "r1" "origin" (.ok (.error "network unreachable")) =
      [Event.repoFetched "r1" false (some "Fetch failed: network unreachable")] ∧
    (fetchTaskEvents "r1" "origin"
      (.ok (.error "network unreachable"))).filter isErrorEvent = [] := by
  constructor <;> rfl

/-- Claim C2, amended: a failed status, log or discovery call is converted
into exactly one `Error` event — scoped to the id for status and log, unscoped
for discovery — and a failed fetch is converted into exactly one
`RepoFetched{id, ok=false}` event; every fetch completion emits exactly one
`RepoFetched` for its id, and no event ever stops the loop. -/
theorem adapter_failures_become_events (id : RepoId) (remote : String) :
    (∀ joined, (∀ st, joined ≠ .ok (.ok st)) →
      ∃ msg, statusTaskEvents id joined = [Event.error (some id) msg]) ∧
    (∀ joined, (∀ cs, joined ≠ .ok (.ok cs)) →
      ∃ msg, logTaskEvents id joined = [Event.error (some id) msg]) ∧
    (∀ joined, (∀ repos, joined ≠ .ok (.ok repos)) →
      ∃ msg, scanTaskEvents joined = [Event.error none msg]) ∧
    (∀ joined, ∃ ok msg,
      fetchTaskEvents id remote joined = [Event.repoFetched id ok msg]) ∧
    (∀ joined, (∀ u, joined ≠ .ok (.ok u)) →
      ∃ msg, fetchTaskEvents id remote joined =
        [Event.repoFetched id false (some msg)]) ∧
    (∀ e : Event, eventBranchOutcome (some e) = LoopOutcome.continueLoop) := by
  refine ⟨?_, ?_, ?_, ?_, ?_, fun _ => rfl⟩
  · intro joined h
    match joined with
    | .ok (.ok st) => exact absurd rfl (h st)
    | .ok (.error e) => exact ⟨_, rfl⟩
    | .error e => exact ⟨_, rfl⟩
  · intro joined h
    match joined with
    | .ok (.ok cs) => exact absurd rfl (h cs)
    | .ok (.error e) => exact ⟨_, rfl⟩
    | .error e => exact ⟨_, rfl⟩
  · intro joined h
    match joined with
    | .ok (.ok repos) => exact absurd rfl (h repos)
    | .ok (.error e) => exact ⟨_, rfl⟩
    | .error e => exact ⟨_, rfl⟩
  · intro joined
    match joined with
    | .ok (.ok u) => exact ⟨_, _, rfl⟩
    | .ok (.error e) => exact ⟨_, _, rfl⟩
    | .error e => exact ⟨_, _, rfl⟩
  · intro joined h
    match joined with
    | .ok (.ok u) => exact absurd rfl (h u)
    | .ok (.error e) => exact ⟨_, rfl⟩
    | .error e => exact ⟨_, rfl⟩

/-- Witness for the amended C2 at one concrete failing result per call kind. -/
theorem adapter_failures_become_events_witness :
    (∃ msg, statusTaskEvents "r1" (.ok (.error "boom")) =
      [Event.error (some "r1") msg]) ∧
    (∃ msg, logTaskEvents "r1" (.error "panicked") =
      [Event.error (some "r1") msg]) ∧
    (∃ msg, scanTaskEvents (.ok (.error "io error")) =
      [Event.error none msg]) ∧
    (∃ msg, fetchTaskEvents "r1" "origin" (.ok (.error "refused")) =
      [Event.repoFetched "r1" false (some msg)]) :=
  ⟨(adapter_failures_become_events "r1" "origin").1 (.ok (.error "boom"))
      (fun st h => by simp at h),
   (adapter_failures_become_events "r1" "origin").2.1 (.error "panicked")
      (fun cs h => by simp at h),
   (adapter_failures_become_events "r1" "origin").2.2.1 (.ok (.error "io error"))
      (fun repos h => by simp at h),
   (adapter_failures_become_events "r1" "origin").2.2.2.2.1
      (.ok (.error "refused")) (fun u h => by simp at h)⟩

/-! ## Claim C7: all-or-nothing scan, streamed by the orchestrator -/

/-- Claim C7: an unreadable entry anywhere in the walk makes `find_repos` (and
hence `scan`) return an error — the `Except` result carries no partial list —
and the orchestrator turns a successful scan into one `RepoDiscovered` per
repository followed by exactly one `ScanCompleted`, and a failed scan into
exactly one unscoped `Error` with no `ScanCompleted`. -/
theorem scan_failure_all_or_nothing :
    (∀ (base : List String) (entries : List (Except String DirEntry)),
      (∃ msg, Except.error msg ∈ entries) →
      ∃ msg2, find_repos base entries = .error msg2) ∧
    (∀ (base : List String) (entries : List (Except String DirEntry)),
      (∃ msg, Except.error msg ∈ entries) →
      ∃ msg2, scanAdapter base entries = .error msg2) ∧
    (∀ repos : List (RepoId × RepoMeta),
      scanTaskEvents (.ok (.ok repos)) =
        repos.map (fun r => Event.repoDiscovered r.1 r.2) ++
          [Event.scanCompleted] ∧
      (scanTaskEvents (.ok (.ok repos))).count Event.scanCompleted = 1) ∧
    (∀ joined, (∀ repos, joined ≠ .ok (.ok repos)) →
      ∃ msg, scanTaskEvents joined = [Event.error none msg] ∧
        Event.scanCompleted ∉ scanTaskEvents joined) := by
  have hfind : ∀ (base : List String) (entries : List (Except String DirEntry)),
      (∃ msg, Except.error msg ∈ entries) →
      ∃ msg2, find_repos base entries = .error msg2 := by
    intro base entries h
    obtain ⟨msg, hmem⟩ := h
    induction entries with
    | nil => cases hmem
    | cons x rest ih =>
      cases x with
      | error e => exact ⟨_, rfl⟩
      | ok entry =>
        have hmem2 : Except.error msg ∈ rest := by
          rcases List.mem_cons.mp hmem with h1 | h1
          · cases h1
          · exact h1
        obtain ⟨m2, hm2⟩ := ih hmem2
        refine ⟨m2, ?_⟩
        show (match find_repos base rest with
          | .error e => .error e
          | .ok repos => _) = Except.error m2
        rw [hm2]
  refine ⟨hfind, ?_, ?_, ?_⟩
  · intro base entries h
    obtain ⟨m2, hm2⟩ := hfind base entries h
    exact ⟨m2, by simp [scanAdapter, hm2]⟩
  · intro repos
    refine ⟨rfl, ?_⟩
    rw [show scanTaskEvents (.ok (.ok repos)) =
      repos.map (fun r => Event.repoDiscovered r.1 r.2) ++
        [Event.scanCompleted] from rfl]
    rw [List.count_append]
    rw [List.count_eq_zero.mpr (by simp [List.mem_map])]
    rfl
  · intro joined h
    match joined with
    | .ok (.ok repos) => exact absurd rfl (h repos)
    | .ok (.error e) => exact ⟨_, rfl, by simp [scanTaskEvents]⟩
    | .error e => exact ⟨_, rfl, by simp [scanTaskEvents]⟩

/-- Witness for C7 at a concrete walk with one unreadable entry and at
concrete scan outcomes. -/
theorem scan_failure_all_or_nothing_witness :
    (∃ msg2, find_repos ["base"]
      [.ok { path := ["base", "a"], hasGitDir := true },
       .error "permission denied"] = .error msg2) ∧
    ((scanTaskEvents (.ok (.ok [("a#base/a",
        { name := "a", path := ["base", "a"], auto_group := "Ungrouped" })]))).count
      Event.scanCompleted = 1) ∧
    (∃ msg, scanTaskEvents (.ok (.error "walk failed")) =
      [Event.error none msg] ∧
      Event.scanCompleted ∉ scanTaskEvents (.ok (.error "walk failed"))) :=
  ⟨scan_failure_all_or_nothing.1 ["base"] _ ⟨"permission denied", by simp⟩,
   (scan_failure_all_or_nothing.2.2.1 [("a#base/a",
      { name := "a", path := ["base", "a"], auto_group := "Ungrouped" })]).2,
   scan_failure_all_or_nothing.2.2.2 (.ok (.error "walk failed"))
      (fun repos h => by simp at h)⟩

/-! ## Claim C8: auto-chaining of status refreshes -/

/-- Claim C8: folding `RepoDiscovered{id}` spawns a status refresh for `id`
within the same handler, folding `RepoFetched{id, ok=true}` likewise, and a
status refresh completion is always either `StatusUpdated{id}` or an `Error`
scoped to `id` — no explicit `RefreshStatus` command is needed. -/
theorem repo_discovered_chains_refresh (id : RepoId) (meta : RepoMeta)
    (msg : Option String) :
    EvAction.spawn (Op.statusOp id) ∈
      handleEventActions (Event.repoDiscovered id meta) ∧
    EvAction.spawn (Op.statusOp id) ∈
      handleEventActions (Event.repoFetched id true msg) ∧
    (∀ joined,
      (∃ st, statusTaskEvents id joined = [Event.statusUpdated id st]) ∨
      (∃ m, statusTaskEvents id joined = [Event.error (some id) m])) := by
  refine ⟨by simp [handleEventActions, eventFoldActions],
    by simp [handleEventActions, eventFoldActions], ?_⟩
  intro joined
  match joined with
  | .ok (.ok st) => exact Or.inl ⟨st, rfl⟩
  | .ok (.error e) => exact Or.inr ⟨_, rfl⟩
  | .error e => exact Or.inr ⟨_, rfl⟩

/-! ## Claim C9: FetchAll fans out over the snapshot -/

/-- Claim C9: handling `FetchAll{prune}` sends no direct event and spawns
exactly one fetch per key of the projection's `repositories` map — each
against remote `"origin"` with the given prune flag, and nothing else — and
every fetch completion emits exactly one `RepoFetched` for its id. -/
theorem fetchAll_snapshot_fanout (proj : ReadProjection) (prune : Bool) :
    (handleCommand proj (Command.fetchAll prune)).events = [] ∧
    (handleCommand proj (Command.fetchAll prune)).spawned.length =
      (mapKeys proj.repositories).length ∧
    (∀ id, Op.fetchOp id "origin" prune ∈
        (handleCommand proj (Command.fetchAll prune)).spawned ↔
      id ∈ mapKeys proj.repositories) ∧
    (∀ op, op ∈ (handleCommand proj (Command.fetchAll prune)).spawned →
      ∃ id, op = Op.fetchOp id "origin" prune ∧
        id ∈ mapKeys proj.repositories) ∧
    (∀ id remote joined, ∃ ok msg,
      fetchTaskEvents id remote joined = [Event.repoFetched id ok msg]) := by
  refine ⟨rfl, by simp [handleCommand], ?_, ?_, ?_⟩
  · intro id
    simp [handleCommand]
  · intro op hop
    simp only [handleCommand, List.mem_map] at hop
    obtain ⟨id, hid, rfl⟩ := hop
    exact ⟨id, rfl, hid⟩
  · intro id remote joined
    match joined with
    | .ok (.ok u) => exact ⟨_, _, rfl⟩
    | .ok (.error e) => exact ⟨_, _, rfl⟩
    | .error e => exact ⟨_, _, rfl⟩

/-- A projection holding exactly one discovered repository. -/
def oneRepoProj : ReadProjection :=
  { repositories :=
      [("rA", { name := "rA", path := ["base", "rA"], auto_group := "Ungrouped" })],
    statuses := [], groups := [], scanning := false,
    refreshing_status := false }

/-- Witness for C9 at the one-repository projection. -/
theorem fetchAll_snapshot_fanout_witness :
    (Op.fetchOp "rA" "origin" true ∈
      (handleCommand oneRepoProj (Command.fetchAll true)).spawned) ∧
    (∃ id, Op.fetchOp "rA" "origin" true = Op.fetchOp id "origin" true ∧
      id ∈ mapKeys oneRepoProj.repositories) ∧
    (∃ ok msg, fetchTaskEvents "rA" "origin" (.ok (.ok ())) =
      [Event.repoFetched "rA" ok msg]) :=
  ⟨((fetchAll_snapshot_fanout oneRepoProj true).2.2.1 "rA").mpr
      (by simp [oneRepoProj, mapKeys]),
   (fetchAll_snapshot_fanout oneRepoProj true).2.2.2.1
      (Op.fetchOp "rA" "origin" true)
      (by simp [handleCommand, oneRepoProj, mapKeys]),
   (fetchAll_snapshot_fanout oneRepoProj true).2.2.2.2 "rA" "origin"
      (.ok (.ok ()))⟩

/-! ## Claim C4: forward-then-fold -/

/-- Claim C4: `handle_event` forwards the event to the external channel as its
very first action — the forward is at the head of the action list and any fold
occurs strictly later — and the handler's net effect appends exactly that
event to the external stream while advancing the projection by exactly one
`apply` of it (for `QuitRequested` the arm skips the fold, and `apply` of it
is the identity, so the equation still holds). -/
theorem forward_then_fold (e : Event) (s : SysState) :
    (handleEventActions e).head? = some (EvAction.forward e) ∧
    (∀ i, (handleEventActions e).get? i = some (EvAction.fold e) → 0 < i) ∧
    (execActions s (handleEventActions e)).external = s.external ++ [e] ∧
    (execActions s (handleEventActions e)).proj = s.proj.apply e := by
  refine ⟨rfl, ?_, ?_, ?_⟩
  · intro i hi
    cases i with
    | zero => simp [handleEventActions] at hi
    | succ n => exact Nat.succ_pos n
  · cases e with
    | repoFetched id ok msg =>
      cases ok <;> simp [handleEventActions, eventFoldActions, execActions]
    | _ => simp [handleEventActions, eventFoldActions, execActions]
  · cases e with
    | repoFetched id ok msg =>
      cases ok <;>
        simp [handleEventActions, eventFoldActions, execActions,
          ReadProjection.apply]
    | quitRequested =>
      simp [handleEventActions, eventFoldActions, execActions,
        ReadProjection.apply]
    | _ => simp [handleEventActions, eventFoldActions, execActions]

/-- Witness for C4 at a concrete event and the startup state. -/
theorem forward_then_fold_witness :
    (execActions initState (handleEventActions Event.scanCompleted)).external =
      [Event.scanCompleted] ∧ 0 < 1 :=
  ⟨by
    have h := (forward_then_fold Event.scanCompleted initState).2.2.1
    simpa [initState] using h,
   (forward_then_fold Event.scanCompleted initState).2.1 1
    (by simp [handleEventActions, eventFoldActions])⟩

/-! ## Claim C3: statuses ⊆ repositories in every reachable projection -/

theorem mem_mapKeys_insert {α β : Type} [DecidableEq α] (m : List (α × β))
    (k : α) (v : β) (x : α) :
    x ∈ mapKeys (mapInsert m k v) ↔ x = k ∨ x ∈ mapKeys m := by
  unfold mapKeys mapInsert
  simp only [List.map_cons, List.mem_cons, List.mem_map, List.mem_filter,
    decide_eq_true_eq]
  constructor
  · rintro (h | ⟨p, ⟨hp, hne⟩, he⟩)
    · exact Or.inl h
    · exact Or.inr ⟨p, hp, he⟩
  · rintro (h | ⟨p, hp, he⟩)
    · exact Or.inl h
    · by_cases hk : x = k
      · exact Or.inl hk
      · exact Or.inr ⟨p, ⟨hp, fun hc => hk (by rw [← he, hc])⟩, he⟩

theorem mem_mapKeys_insert_of_mem {α β : Type} [DecidableEq α]
    {m : List (α × β)} {x : α} (k : α) (v : β) (h : x ∈ mapKeys m) :
    x ∈ mapKeys (mapInsert m k v) :=
  (mem_mapKeys_insert m k v x).mpr (Or.inr h)

/-- Every `StatusUpdated` in the list is for an already-known repository. -/
def EventsOk (repos : List (RepoId × RepoMeta)) (evs : List Event) : Prop :=
  ∀ id st, Event.statusUpdated id st ∈ evs → id ∈ mapKeys repos

theorem eventsOk_append {repos : List (RepoId × RepoMeta)} {l1 l2 : List Event}
    (h1 : EventsOk repos l1) (h2 : EventsOk repos l2) :
    EventsOk repos (l1 ++ l2) :=
  fun id st hm => (List.mem_append.mp hm).elim (h1 id st) (h2 id st)

theorem eventsOk_mono {repos repos2 : List (RepoId × RepoMeta)}
    {evs : List Event}
    (hsub : ∀ x, x ∈ mapKeys repos → x ∈ mapKeys repos2)
    (h : EventsOk repos evs) : EventsOk repos2 evs :=
  fun id st hm => hsub id (h id st hm)

theorem statusUpdated_not_mem_scanTaskEvents
    (joined : Except String (Except String (List (RepoId × RepoMeta))))
    (id : RepoId) (st : RepoStatus) :
    Event.statusUpdated id st ∉ scanTaskEvents joined := by
  match joined with
  | .ok (.ok repos) =>
    intro hm
    rcases List.mem_append.mp hm with h | h
    · obtain ⟨r, _, he⟩ := List.mem_map.mp h
      cases he
    · simp at h
  | .ok (.error e) => simp [scanTaskEvents]
  | .error e => simp [scanTaskEvents]

theorem statusUpdated_not_mem_fetchTaskEvents (id2 : RepoId) (remote : String)
    (joined : Except String (Except String Unit)) (id : RepoId)
    (st : RepoStatus) :
    Event.statusUpdated id st ∉ fetchTaskEvents id2 remote joined := by
  match joined with
  | .ok (.ok u) => simp [fetchTaskEvents]
  | .ok (.error e) => simp [fetchTaskEvents]
  | .error e => simp [fetchTaskEvents]

theorem statusUpdated_not_mem_logTaskEvents (id2 : RepoId)
    (joined : Except String (Except String (List Commit))) (id : RepoId)
    (st : RepoStatus) :
    Event.statusUpdated id st ∉ logTaskEvents id2 joined := by
  match joined with
  | .ok (.ok cs) => simp [logTaskEvents]
  | .ok (.error e) => simp [logTaskEvents]
  | .error e => simp [logTaskEvents]

theorem statusUpdated_not_mem_handleCommand (proj : ReadProjection)
    (c : Command) (id : RepoId) (st : RepoStatus) :
    Event.statusUpdated id st ∉ (handleCommand proj c).events := by
  cases c <;> simp [handleCommand]

theorem emitter_not_mem_handleCommand (proj : ReadProjection) (c : Command)
    (evs : List Event) :
    Op.emitter evs ∉ (handleCommand proj c).spawned := by
  cases c <;> simp [handleCommand]

/-- The inductive invariant: status keys are repository keys, registered ids
are repository keys, and every pending `StatusUpdated` — queued or still
inside a draining task — is for a repository key. -/
def SysInv (s : SysState) : Prop :=
  (∀ id, id ∈ mapKeys s.proj.statuses → id ∈ mapKeys s.proj.repositories) ∧
  (∀ id, id ∈ s.registered → id ∈ mapKeys s.proj.repositories) ∧
  EventsOk s.proj.repositories s.queue ∧
  (∀ evs, Op.emitter evs ∈ s.inflight → EventsOk s.proj.repositories evs)

theorem step_preserves_inv {s s2 : SysState} (hstep : Step s s2)
    (hinv : SysInv s) : SysInv s2 := by
  obtain ⟨hstat, hreg, hqueueOk, hemit⟩ := hinv
  cases hstep with
  | command c =>
    refine ⟨hstat, hreg, ?_, ?_⟩
    · exact eventsOk_append hqueueOk (fun id st hm =>
        absurd hm (statusUpdated_not_mem_handleCommand s.proj c id st))
    · intro evs hm
      rcases List.mem_append.mp hm with h | h
      · exact hemit evs h
      · exact absurd h (emitter_not_mem_handleCommand s.proj c evs)
  | scanDone base joined hmem =>
    refine ⟨hstat, hreg, hqueueOk, ?_⟩
    intro evs hm
    rcases List.mem_append.mp hm with h | h
    · exact hemit evs (List.mem_of_mem_erase h)
    · have heq : evs = scanTaskEvents joined := by simpa using h
      rw [heq]
      exact fun id st hms =>
        absurd hms (statusUpdated_not_mem_scanTaskEvents joined id st)
  | statusDone id joined hmem hregOk =>
    refine ⟨hstat, hreg, hqueueOk, ?_⟩
    intro evs hm
    rcases List.mem_append.mp hm with h | h
    · exact hemit evs (List.mem_of_mem_erase h)
    · have heq : evs = statusTaskEvents id joined := by simpa using h
      rw [heq]
      intro id2 st2 hms
      match joined with
      | .ok (.ok st) =>
        have : id2 = id ∧ st2 = st := by simpa [statusTaskEvents] using hms
        rw [this.1]
        exact hreg id (hregOk ⟨st, rfl⟩)
      | .ok (.error e) => simp [statusTaskEvents] at hms
      | .error e => simp [statusTaskEvents] at hms
  | fetchDone id remote prune joined hmem =>
    refine ⟨hstat, hreg, hqueueOk, ?_⟩
    intro evs hm
    rcases List.mem_append.mp hm with h | h
    · exact hemit evs (List.mem_of_mem_erase h)
    · have heq : evs = fetchTaskEvents id remote joined := by simpa using h
      rw [heq]
      exact fun id2 st hms =>
        absurd hms (statusUpdated_not_mem_fetchTaskEvents id remote joined id2 st)
  | logDone id range limit joined hmem =>
    refine ⟨hstat, hreg, hqueueOk, ?_⟩
    intro evs hm
    rcases List.mem_append.mp hm with h | h
    · exact hemit evs (List.mem_of_mem_erase h)
    · have heq : evs = logTaskEvents id joined := by simpa using h
      rw [heq]
      exact fun id2 st hms =>
        absurd hms (statusUpdated_not_mem_logTaskEvents id joined id2 st)
  | emit e rest hmem =>
    refine ⟨hstat, hreg, ?_, ?_⟩
    · refine eventsOk_append hqueueOk ?_
      intro id st hm
      have he : Event.statusUpdated id st = e := by simpa using hm
      exact hemit (e :: rest) hmem id st (by rw [← he]; exact List.mem_cons_self _ _)
    · intro evs hm
      rcases List.mem_append.mp hm with h | h
      · exact hemit evs (List.mem_of_mem_erase h)
      · have heq : evs = rest := by simpa using h
        rw [heq]
        exact fun id st hms =>
          hemit (e :: rest) hmem id st (List.mem_cons_of_mem _ hms)
  | processEvent e rest hq =>
    have tailOk : EventsOk s.proj.repositories rest := by
      intro id2 st2 hm
      refine hqueueOk id2 st2 ?_
      rw [hq]
      exact List.mem_cons_of_mem _ hm
    cases e with
    | repoDiscovered id meta =>
      refine ⟨?_, ?_, ?_, ?_⟩
      · intro id2 h2
        exact mem_mapKeys_insert_of_mem id meta (hstat id2 h2)
      · intro id2 h2
        rcases List.mem_cons.mp h2 with h3 | h3
        · rw [h3]
          exact (mem_mapKeys_insert _ id meta id).mpr (Or.inl rfl)
        · exact mem_mapKeys_insert_of_mem id meta (hreg id2 h3)
      · exact eventsOk_mono (fun x hx => mem_mapKeys_insert_of_mem id meta hx) tailOk
      · intro evs hm
        rcases List.mem_cons.mp hm with h3 | h3
        · cases h3
        · exact eventsOk_mono (fun x hx => mem_mapKeys_insert_of_mem id meta hx)
            (hemit evs h3)
    | scanCompleted => exact ⟨hstat, hreg, tailOk, hemit⟩
    | statusUpdated id st =>
      refine ⟨?_, hreg, tailOk, hemit⟩
      intro id2 h2
      rcases (mem_mapKeys_insert _ id st id2).mp h2 with h3 | h3
      · rw [h3]
        refine hqueueOk id st ?_
        rw [hq]
        exact List.mem_cons_self _ _
      · exact hstat id2 h3
    | fetchProgress id d t => exact ⟨hstat, hreg, tailOk, hemit⟩
    | repoFetched id ok msg =>
      cases ok with
      | false => exact ⟨hstat, hreg, tailOk, hemit⟩
      | true =>
        refine ⟨hstat, hreg, tailOk, ?_⟩
        intro evs hm
        rcases List.mem_cons.mp hm with h3 | h3
        · cases h3
        · exact hemit evs h3
    | logLoaded id cs => exact ⟨hstat, hreg, tailOk, hemit⟩
    | error i m => exact ⟨hstat, hreg, tailOk, hemit⟩
    | quitRequested => exact ⟨hstat, hreg, tailOk, hemit⟩

theorem reachable_inv (s : SysState) (h : Reachable s) : SysInv s := by
  unfold Reachable at h
  induction h with
  | refl =>
    refine ⟨?_, ?_, ?_, ?_⟩
    · intro id h2
      simp [initState, ReadProjection.empty, mapKeys] at h2
    · intro id h2
      simp [initState] at h2
    · intro id st h2
      simp [initState] at h2
    · intro evs h2
      simp [initState] at h2
  | tail hab hbc ih => exact step_preserves_inv hbc ih

/-- Claim C3: in every state the orchestrator can reach from startup — the
event sequences it can produce are exactly the `processEvent` folds along
such runs — every key of the projection's `statuses` map is also a key of its
`repositories` map. -/
theorem statuses_subset_repositories (s : SysState) (h : Reachable s)
    (id : RepoId) (hid : id ∈ mapKeys s.proj.statuses) :
    id ∈ mapKeys s.proj.repositories :=
  (reachable_inv s h).1 id hid

/-- Metadata for the repository discovered in the demonstration run. -/
def metaX : RepoMeta := { name := "a", path := ["b", "a"], auto_group := "Ungrouped" }

/-- Status for the repository refreshed in the demonstration run. -/
def stX : RepoStatus :=
  { name := "a", path := ["b", "a"], branch_name := some "main",
    is_dirty := false, ahead_count := 0, behind_count := 0,
    is_detached := false, has_staged := false, has_unstaged := false,
    last_commit_summary := "init" }

/-- Demonstration run, step 1: a `Rescan` spawned the discovery task. -/
def demoS1 : SysState :=
  { proj := ReadProjection.empty, registered := [], queue := [],
    external := [], inflight := [Op.scanOp ["b"]] }

/-- Step 2: the discovery task completed with one repository. -/
def demoS2 : SysState :=
  { demoS1 with inflight :=
      [Op.emitter [Event.repoDiscovered "rX" metaX, Event.scanCompleted]] }

/-- Step 3: the task's first send reached the event channel. -/
def demoS3 : SysState :=
  { demoS2 with
    inflight := [Op.emitter [Event.scanCompleted]],
    queue := [Event.repoDiscovered "rX" metaX] }

/-- Step 4: the discovery event was forwarded and folded, the path
registered, and a status refresh spawned. -/
def demoProjX : ReadProjection :=
  { repositories := [("rX", metaX)], statuses := [], groups := [],
    scanning := false, refreshing_status := false }

def demoS4 : SysState :=
  { proj := demoProjX,
    registered := ["rX"], queue := [],
    external := [Event.repoDiscovered "rX" metaX],
    inflight := [Op.statusOp "rX", Op.emitter [Event.scanCompleted]] }

/-- Step 5: the status task completed successfully. -/
def demoS5 : SysState :=
  { demoS4 with
    inflight := [Op.emitter [Event.scanCompleted],
                 Op.emitter [Event.statusUpdated "rX" stX]] }

/-- Step 6: the status event reached the event channel. -/
def demoS6 : SysState :=
  { demoS5 with
    inflight := [Op.emitter [Event.scanCompleted], Op.emitter []],
    queue := [Event.statusUpdated "rX" stX] }

/-- Step 7: the status event was forwarded and folded. -/
def demoState : SysState :=
  { demoS6 with
    proj := { demoS6.proj with statuses := [("rX", stX)] },
    queue := [],
    external := [Event.repoDiscovered "rX" metaX,
      Event.statusUpdated "rX" stX] }

/-- Witness for C3 along a concrete seven-step run that discovers one
repository and folds its status. -/
theorem statuses_subset_repositories_witness :
    "rX" ∈ mapKeys demoState.proj.repositories := by
  have r1 : Reachable demoS1 :=
    Relation.ReflTransGen.tail Relation.ReflTransGen.refl
      (Step.command initState (Command.rescan ["b"]))
  have r2 : Reachable demoS2 :=
    r1.tail (Step.scanDone demoS1 ["b"] (.ok (.ok [("rX", metaX)]))
      (List.mem_cons_self _ _))
  have r3 : Reachable demoS3 :=
    r2.tail (Step.emit demoS2 (Event.repoDiscovered "rX" metaX)
      [Event.scanCompleted] (List.mem_cons_self _ _))
  have r4 : Reachable demoS4 :=
    r3.tail (Step.processEvent demoS3 (Event.repoDiscovered "rX" metaX) [] rfl)
  have r5 : Reachable demoS5 :=
    r4.tail (Step.statusDone demoS4 "rX" (.ok (.ok stX))
      (List.mem_cons_self _ _) (fun _ => List.mem_cons_self _ _))
  have r6 : Reachable demoS6 :=
    r5.tail (Step.emit demoS5 (Event.statusUpdated "rX" stX) []
      (List.mem_cons_of_mem _ (List.mem_cons_self _ _)))
  have r7 : Reachable demoState :=
    r6.tail (Step.processEvent demoS6 (Event.statusUpdated "rX" stX) [] rfl)
  exact statuses_subset_repositories demoState r7 "rX"
    (List.mem_cons_self _ _)
